import Mathlib

/-!
Verification development for the gmsec-js connection core
(`src/server/include/gmsec/internal/BaseConnection.h`).

The repository exposes only the header of `BaseConnection`: declarations,
constants and doc comments.  The bodies of the subject matcher, the callback
registry, the request correlator, the auto-dispatcher and the error-callback
registry live in compilation units that are not part of the repository, so
those components are modelled from the specification (each such definition
carries a doc comment starting with `Modelled from the spec:`).  Constants
that do appear in the header (`MIN_TIMEOUT_ms`, `REPUBLISH_NEVER`,
`DEFAULT_REPUBLISH_ms`, `MIN_REPUBLISH_ms`, `REPLY_UNIQUE_ID_FIELD`) are
embedded with their declared values.
-/

/-! ## Constants from the header (BaseConnection.h lines 97-104) -/

def MIN_TIMEOUT_ms : Int := 10

def REPUBLISH_NEVER : Int := -1

def DEFAULT_REPUBLISH_ms : Int := 60000

def MIN_REPUBLISH_ms : Int := 100

def REPLY_UNIQUE_ID_FIELD : String := "REPLY-UNIQUE-ID"

/-! ## SubjectMatcher -/

/-- Modelled from the spec: the tokenizer of the SubjectMatcher splits a
subject or pattern string on the fixed dot delimiter (the matcher's
implementation is not in the repository; spec section 4.2).  Accumulates the
current token in `acc` (reversed) while walking the character list. -/
def splitDotAux : List Char → List Char → List String
  | acc, [] => [String.mk acc.reverse]
  | acc, c :: cs =>
    if c = '.' then String.mk acc.reverse :: splitDotAux [] cs
    else splitDotAux (c :: acc) cs

/-- Modelled from the spec: tokenize a subject or pattern on the dot
delimiter (spec section 4.2). -/
def tokenize (s : String) : List String :=
  splitDotAux [] s.data

/-- Modelled from the spec: the token-level matcher of the SubjectMatcher
(spec section 4.2): a non-wildcard token must equal the subject token at the
same position, a star token consumes exactly one subject token, and the
greater-than token is legal only as the last pattern token, where it consumes
one or more remaining subject tokens; without a greater-than token the
lengths must agree exactly. -/
def matchTokens : List String → List String → Bool
  | [], [] => true
  | [], _ :: _ => false
  | _ :: _, [] => false
  | s :: ss, p :: ps =>
    if p = ">" then decide (ps = [])
    else (p = "*" || p = s) && matchTokens ss ps

/-- Modelled from the spec: the SubjectMatcher entry point, a pure function
of the subject and pattern strings (spec section 4.2). -/
def subjectMatches (subject pattern : String) : Bool :=
  matchTokens (tokenize subject) (tokenize pattern)

/-- A pattern token matches a subject token when it is the star wildcard or
equal to it.  This is the claim's condition (a)/(b), stated from the spec's
words for the refinement comparison with `matchTokens`. -/
def tokenOk (p s : String) : Prop := p = "*" ∨ p = s

/-- The claim's characterization of a match, written from the spec's words
(not from `matchTokens`): either the pattern has no greater-than token and is
position-wise aligned with a subject of exactly the same length, or the
pattern is a greater-than-free prefix followed by a final greater-than token
that consumes one or more remaining subject tokens. -/
def specMatchCond (S P : List String) : Prop :=
  (">" ∉ P ∧ List.Forall₂ tokenOk P S) ∨
  (∃ Q S1 S2, P = Q ++ [">"] ∧ ">" ∉ Q ∧ S = S1 ++ S2 ∧ S2 ≠ [] ∧
    List.Forall₂ tokenOk Q S1)

theorem matchTokens_iff_specMatchCond (S P : List String) :
    matchTokens S P = true ↔ specMatchCond S P := by
  induction S generalizing P with
  | nil =>
    cases P with
    | nil =>
      simp only [matchTokens, specMatchCond]
      constructor
      · intro _
        exact Or.inl ⟨by simp, List.Forall₂.nil⟩
      · intro _; trivial
    | cons p ps =>
      simp only [matchTokens, specMatchCond]
      constructor
      · intro h; exact absurd h (by simp)
      · rintro (⟨_, hf⟩ | ⟨Q, S1, S2, _, _, hS, hne, _⟩)
        · exact absurd hf (by cases hf)
        · exact absurd hS.symm (by simpa using fun h1 h2 => hne h2)
  | cons s ss ih =>
    cases P with
    | nil =>
      simp only [matchTokens, specMatchCond]
      constructor
      · intro h; exact absurd h (by simp)
      · rintro (⟨_, hf⟩ | ⟨Q, S1, S2, hP, _, _, _, _⟩)
        · cases hf
        · exact absurd hP (by simp)
    | cons p ps =>
      by_cases hgt : p = ">"
      · subst hgt
        simp only [matchTokens, if_pos rfl]
        constructor
        · intro h
          have hps : ps = [] := by simpa using h
          subst hps
          exact Or.inr ⟨[], [], s :: ss, rfl, by simp, by simp, by simp,
            List.Forall₂.nil⟩
        · rintro (⟨hnotin, _⟩ | ⟨Q, S1, S2, hP, hQ, _, _, hf⟩)
          · exact absurd (List.mem_cons_self _ _) hnotin
          · cases Q with
            | nil =>
              simp at hP
              simp [hP]
            | cons q Q' =>
              have : q = ">" := by
                have := congrArg (fun l => l.headI) hP
                simpa using this.symm
              exact absurd (by simp [this]) hQ
      · simp only [matchTokens, if_neg hgt, Bool.and_eq_true, Bool.or_eq_true,
          decide_eq_true_eq]
        rw [ih ps]
        constructor
        · rintro ⟨hok, hrest⟩
          rcases hrest with ⟨hnotin, hf⟩ | ⟨Q, S1, S2, hP, hQ, hS, hne, hf⟩
          · refine Or.inl ⟨?_, List.Forall₂.cons hok hf⟩
            simp only [List.mem_cons, not_or]
            exact ⟨fun h => hgt h.symm, hnotin⟩
          · refine Or.inr ⟨p :: Q, s :: S1, S2, by simp [hP], ?_,
              by simp [hS], hne, List.Forall₂.cons hok hf⟩
            simp only [List.mem_cons, not_or]
            exact ⟨fun h => hgt h.symm, hQ⟩
        · rintro (⟨hnotin, hf⟩ | ⟨Q, S1, S2, hP, hQ, hS, hne, hf⟩)
          · rcases hf with _ | ⟨hok, hf'⟩
            refine ⟨hok, Or.inl ⟨?_, hf'⟩⟩
            intro h; exact hnotin (List.mem_cons_of_mem _ h)
          · cases Q with
            | nil =>
              exfalso
              have : p = ">" := by simpa using congrArg (fun l => l.headI) hP
              exact hgt this
            | cons q Q' =>
              have hpq : p = q ∧ ps = Q' ++ [">"] := by
                constructor
                · simpa using congrArg (fun l => l.headI) hP
                · simpa using congrArg List.tail hP
              rcases hpq with ⟨hpq1, hpq2⟩
              subst hpq1
              cases S1 with
              | nil => cases hf
              | cons s1 S1' =>
                rcases hf with _ | ⟨hok, hf'⟩
                have hss : s = s1 ∧ ss = S1' ++ S2 := by
                  constructor
                  · simpa using congrArg (fun l => l.headI) hS
                  · simpa using congrArg List.tail hS
                rcases hss with ⟨hs1, hs2⟩
                subst hs1
                refine ⟨hok, Or.inr ⟨Q', S1', S2, hpq2, ?_, hs2, hne, hf'⟩⟩
                intro h; exact hQ (List.mem_cons_of_mem _ h)

/-- C1: tokenizing on the dot delimiter, a pattern matches a subject iff
every non-wildcard token is an exact position-aligned match, a star consumes
exactly one token, a greater-than token is legal only as the final pattern
token where it consumes one or more remaining subject tokens, and a pattern
without a greater-than token matches only subjects of exactly the same token
count; in particular `a.b.c` matches `a.*.c` but not `a.*.d`, and
`gmsec.mission.const.sat.>` does not match `gmsec.mission.const.sat`. -/
theorem subjectMatcher_spec :
    (∀ S P : List String, matchTokens S P = true ↔ specMatchCond S P) ∧
    subjectMatches "a.b.c" "a.*.c" = true ∧
    subjectMatches "a.b.c" "a.*.d" = false ∧
    subjectMatches "gmsec.mission.const.sat" "gmsec.mission.const.sat.>" = false := by
  refine ⟨matchTokens_iff_specMatchCond, ?_, ?_, ?_⟩ <;> decide

/-! ## CallbackRegistry (CallbackLookup) -/

/-- Modelled from the spec: the subscription registry owned by the
connection.  `pullPatterns` is the middleware-level reception list (messages
matching one of these are queued for `GetNextMsg`); `subs` is the ordered
list of (pattern, callback) registrations used by `DispatchMsg` and the
auto-dispatcher (spec sections 3 and 4.1; header lines 194-282).  Callbacks
are identified by numeric ids. -/
structure Registry where
  pullPatterns : List String
  subs : List (String × Nat)

/-- Modelled from the spec: `Subscribe(subject)` without a callback enables
pull-only delivery for the pattern (header lines 194-199). -/
def subscribePull (reg : Registry) (p : String) : Registry :=
  { reg with pullPatterns := reg.pullPatterns ++ [p] }

/-- Modelled from the spec: `Subscribe(subject, cb)` enables reception and
registers the callback under the pattern, preserving registration order
(header lines 229-249). -/
def subscribeCb (reg : Registry) (p : String) (cb : Nat) : Registry :=
  { pullPatterns := reg.pullPatterns ++ [p], subs := reg.subs ++ [(p, cb)] }

/-- Modelled from the spec: `UnSubscribe(subject)` stops reception of
messages matching the pattern and removes the registration of every callback
with this pattern (header lines 251-265). -/
def unSubscribeAll (reg : Registry) (p : String) : Registry :=
  { pullPatterns := reg.pullPatterns.filter (· ≠ p),
    subs := reg.subs.filter (fun e => e.1 ≠ p) }

/-- Modelled from the spec: `UnSubscribe(subject, cb)` removes a single
callback registration for the pattern and does not unsubscribe the reception
of the message, which will still be received for `GetNextMsg` (header lines
266-282). -/
def unSubscribeCb (reg : Registry) (p : String) (cb : Nat) : Registry :=
  { reg with subs := reg.subs.filter (fun e => ¬(e.1 = p ∧ e.2 = cb)) }

/-- Modelled from the spec: `Resolve(subject)`, the pure lookup used by
`DispatchMsg` and the auto-dispatcher: the callbacks of every registration
whose pattern matches the subject, in registration order (spec section
4.1). -/
def resolveCallbacks (reg : Registry) (subject : String) : List Nat :=
  (reg.subs.filter (fun e => subjectMatches subject e.1)).map (fun e => e.2)

/-- Pull delivery for a pattern is active while the middleware-level
subscription exists. -/
def pullActive (reg : Registry) (p : String) : Prop :=
  p ∈ reg.pullPatterns

/-- C5: `UnSubscribe(P)` with no callback removes every registration for `P`
— afterwards no callback registered under `P` survives, `Resolve` returns no
callbacks when every registration was under `P`, and pull delivery for `P`
stops; `UnSubscribe(P, cb)` removes only that callback, keeping every other
registration under `P` and pull delivery for `P` intact. -/
theorem unSubscribe_spec (reg : Registry) (p : String) (cb : Nat) :
    (∀ e ∈ (unSubscribeAll reg p).subs, e.1 ≠ p) ∧
    ¬ pullActive (unSubscribeAll reg p) p ∧
    (∀ subject, (∀ e ∈ reg.subs, e.1 = p) →
      resolveCallbacks (unSubscribeAll reg p) subject = []) ∧
    (p, cb) ∉ (unSubscribeCb reg p cb).subs ∧
    (∀ e ∈ reg.subs, (e.1 ≠ p ∨ e.2 ≠ cb) → e ∈ (unSubscribeCb reg p cb).subs) ∧
    (unSubscribeCb reg p cb).pullPatterns = reg.pullPatterns := by
  refine ⟨?_, ?_, ?_, ?_, ?_, rfl⟩
  · intro e he
    have := List.of_mem_filter he
    simpa using this
  · intro h
    have := List.of_mem_filter h
    simp at this
  · intro subject hall
    have hnil : (unSubscribeAll reg p).subs = [] := by
      simp only [unSubscribeAll]
      rw [List.filter_eq_nil_iff]
      intro e he
      simp [hall e he]
    simp [resolveCallbacks, hnil]
  · intro h
    have := List.of_mem_filter h
    simp at this
  · intro e he hne
    refine List.mem_filter.mpr ⟨he, ?_⟩
    simp only [decide_eq_true_eq]
    rcases hne with h1 | h2
    · intro hc; exact h1 hc.1
    · intro hc; exact h2 hc.2

theorem unSubscribe_spec_witness :
    (∀ e ∈ ({ pullPatterns := ["a.b"], subs := [("a.b", 7)] } : Registry).subs,
      e.1 = "a.b") ∧
    resolveCallbacks
      (unSubscribeAll { pullPatterns := ["a.b"], subs := [("a.b", 7)] } "a.b")
      "a.b" = [] := by
  refine ⟨by decide, ?_⟩
  exact (unSubscribe_spec { pullPatterns := ["a.b"], subs := [("a.b", 7)] }
    "a.b" 7).2.2.1 "a.b" (by decide)

/-! ## Auto-dispatch of a received message -/

/-- Modelled from the spec: one routing step of the auto-dispatch worker for
a received message: the matching callbacks are resolved and invoked, and the
message itself is consumed — it is thrown away rather than retained in the
`GetNextMsg` queue (header lines 194-199 and 456-460; spec section 4.5).
Returns the invoked callback ids and the retained pull queue. -/
def autoDispatchStep (reg : Registry) (queue : List String) (subject : String) :
    List Nat × List String :=
  (resolveCallbacks reg subject, queue)

/-- C10: while the auto-dispatcher runs, a received message whose subject
matches no callback registration (only callback-less subscriptions) is
discarded: no callback is invoked for it and it is not retained for later
retrieval via `GetNextMsg`. -/
theorem autoDispatch_discards_pull_only (reg : Registry) (queue : List String)
    (subject : String)
    (h : ∀ e ∈ reg.subs, subjectMatches subject e.1 = false) :
    (autoDispatchStep reg queue subject).1 = [] ∧
    (autoDispatchStep reg queue subject).2 = queue := by
  refine ⟨?_, rfl⟩
  simp only [autoDispatchStep, resolveCallbacks]
  rw [List.filter_eq_nil_iff.mpr]
  · rfl
  · intro e he
    simp [h e he]

theorem autoDispatch_discards_pull_only_witness :
    (autoDispatchStep { pullPatterns := ["a.b"], subs := [("c.d", 3)] }
      ["old.msg"] "a.b").1 = [] ∧
    (autoDispatchStep { pullPatterns := ["a.b"], subs := [("c.d", 3)] }
      ["old.msg"] "a.b").2 = ["old.msg"] :=
  autoDispatch_discards_pull_only
    { pullPatterns := ["a.b"], subs := [("c.d", 3)] } ["old.msg"] "a.b"
    (by decide)

/-! ## ErrorCallbackRegistry -/

/-- Lowercase a single character (ASCII range), used for case-insensitive
key normalization. -/
def lowerChar (c : Char) : Char :=
  if 'A' ≤ c ∧ c ≤ 'Z' then Char.ofNat (c.toNat + 32) else c

/-- Modelled from the spec: the case-insensitive key normalization performed
by the `ci_less` comparator of `fErrorCbLkps` (header lines 669-672; spec
section 4.3 and the design note mapping it to a lowercased key). -/
def normEvent (s : String) : String := String.mk (s.data.map lowerChar)

/-- Modelled from the spec: `RegisterErrorCallback(event, cb)` with
replace-on-duplicate, case-insensitive key normalization (header lines
174-192; spec section 4.3).  The registry is an association list from
normalized event name to callback id. -/
def registerErrorCallback (m : List (String × Nat)) (event : String)
    (cb : Nat) : List (String × Nat) :=
  m.filter (fun e => decide (e.1 ≠ normEvent event)) ++ [(normEvent event, cb)]

/-- Modelled from the spec: lookup of the error callback registered for an
event name, case-insensitively (spec section 4.3). -/
def lookupErrorCallback (m : List (String × Nat)) (event : String) :
    Option Nat :=
  (m.find? (fun e => decide (e.1 = normEvent event))).map (fun e => e.2)

/-- Modelled from the spec: `DispatchError(event, msg, status)` invokes the
registered callback if present, else is a silent no-op (header line 546;
spec section 4.3).  Returns the invoked callback ids. -/
def dispatchError (m : List (String × Nat)) (event : String) : List Nat :=
  match lookupErrorCallback m event with
  | some cb => [cb]
  | none => []

theorem find?_append_last_key {α : Type} (l : List (String × α)) (k : String)
    (v : α) (h : ∀ e ∈ l, e.1 ≠ k) :
    (l ++ [(k, v)]).find? (fun e => decide (e.1 = k)) = some (k, v) := by
  rw [List.find?_append]
  have hnone : l.find? (fun e => decide (e.1 = k)) = none := by
    rw [List.find?_eq_none]
    intro e he
    simp [h e he]
  simp [hnone, List.find?]

theorem lookup_after_register (l : List (String × Nat)) (event ev : String)
    (cb : Nat) (hev : normEvent ev = normEvent event) :
    lookupErrorCallback (registerErrorCallback l event cb) ev = some cb := by
  have h : ∀ e ∈ l.filter (fun e => decide (e.1 ≠ normEvent event)),
      e.1 ≠ normEvent event := by
    intro e he
    have := List.of_mem_filter he
    simpa using this
  simp only [lookupErrorCallback, registerErrorCallback, hev]
  rw [find?_append_last_key _ _ _ h]
  rfl

theorem filter_key_after_register (l : List (String × Nat)) (event : String)
    (cb : Nat) :
    (registerErrorCallback l event cb).filter
      (fun e => decide (e.1 = normEvent event)) = [(normEvent event, cb)] := by
  simp only [registerErrorCallback, List.filter_append]
  rw [List.filter_eq_nil_iff.mpr]
  · simp
  · intro e he
    have := List.of_mem_filter he
    simpa using this

/-- C8: the error-callback registry is keyed case-insensitively and holds at
most one callback per normalized event name: for event names that differ
only in letter case, registering the second replaces the entry stored under
the first, and a subsequent dispatch for either spelling invokes only the
most recently registered callback. -/
theorem errorCallback_case_insensitive_replace (m : List (String × Nat))
    (e1 e2 : String) (cb1 cb2 : Nat) (hcase : normEvent e1 = normEvent e2) :
    ((registerErrorCallback (registerErrorCallback m e1 cb1) e2 cb2).filter
        (fun e => decide (e.1 = normEvent e1)) = [(normEvent e2, cb2)]) ∧
    dispatchError (registerErrorCallback (registerErrorCallback m e1 cb1) e2 cb2)
        e1 = [cb2] ∧
    dispatchError (registerErrorCallback (registerErrorCallback m e1 cb1) e2 cb2)
        e2 = [cb2] := by
  refine ⟨?_, ?_, ?_⟩
  · rw [hcase]
    exact filter_key_after_register _ _ _
  · simp [dispatchError, lookup_after_register _ _ _ _ hcase]
  · simp [dispatchError, lookup_after_register _ _ _ _ rfl]

theorem errorCallback_case_insensitive_replace_witness :
    normEvent "Foo" = normEvent "FOO" ∧
    dispatchError (registerErrorCallback (registerErrorCallback [] "Foo" 1)
      "FOO" 2) "Foo" = [2] :=
  ⟨by decide,
   (errorCallback_case_insensitive_replace [] "Foo" "FOO" 1 2 (by decide)).2.1⟩

/-! ## Messages and sendRequest -/

/-- Modelled from the spec: the opaque message value with settable
string-valued fields; the core never inspects it beyond the reserved
correlation and tracking fields (spec section 6). -/
structure Msg where
  subject : String
  fields : List (String × String)

/-- Modelled from the spec: set a named field of a message, replacing any
previous value (spec section 6). -/
def setField (m : Msg) (name value : String) : Msg :=
  { m with fields := m.fields.filter (fun f => decide (f.1 ≠ name)) ++ [(name, value)] }

/-- Modelled from the spec: read a named field of a message (spec section
6). -/
def getField (m : Msg) (name : String) : Option String :=
  (m.fields.find? (fun f => decide (f.1 = name))).map (fun f => f.2)

/-- Modelled from the spec: `sendRequest(request, id)` generates a
correlation id unique within the connection (connection identity combined
with a monotonically increasing counter), stores it in the reserved
`REPLY-UNIQUE-ID` field of the request before transmission, and returns the
same id through the `id` out-parameter (header lines 445-454; spec section
4.4 step 1).  Returns the message as sent, the returned id, and the advanced
counter. -/
def sendRequest (connId : String) (counter : Nat) (request : Msg) :
    Msg × String × Nat :=
  let uid := connId ++ "_" ++ toString counter
  (setField request REPLY_UNIQUE_ID_FIELD uid, uid, counter + 1)

/-- C9: the unique correlation id generated by `sendRequest` is stored in
the reserved `REPLY-UNIQUE-ID` field of the outgoing message, and the very
same id string is returned through the id out-parameter, so the id the
correlator tracks equals the id carried by the message. -/
theorem sendRequest_id_in_field (connId : String) (counter : Nat)
    (request : Msg) :
    getField (sendRequest connId counter request).1 REPLY_UNIQUE_ID_FIELD =
      some (sendRequest connId counter request).2.1 := by
  have h : ∀ e ∈ request.fields.filter
      (fun f => decide (f.1 ≠ REPLY_UNIQUE_ID_FIELD)),
      e.1 ≠ REPLY_UNIQUE_ID_FIELD := by
    intro f hf
    have := List.of_mem_filter hf
    simpa using this
  simp only [sendRequest, getField, setField]
  rw [find?_append_last_key _ _ _ h]
  rfl

/-! ## RequestCorrelator -/

/-- How a resolved request was concluded. -/
inductive Resolution
  | replied
  | timedOut
  | cancelled
deriving DecidableEq

/-- Modelled from the spec: a pending request entry of the correlator
(spec section 3): correlation id, timeout deadline (absolute ms; `none` is
the sentinel "never", for a timeout ≤ 0), next-republish deadline (`none`
disables republish) and the republish interval. -/
structure PendingRequest where
  uid : String
  deadline : Option Nat
  nextRepublish : Option Nat
  interval : Nat
deriving DecidableEq

/-- Modelled from the spec: the correlator state: the table of pending
requests and the log of resolutions delivered to callers (spec sections 3
and 4.4). -/
structure CorrState where
  pending : List PendingRequest
  log : List (String × Resolution)
deriving DecidableEq

/-- Modelled from the spec: `resolveRequestTimeout` turns the caller's
timeout into a deadline: deadline = now + timeout, and a timeout ≤ 0 is the
sentinel "never" which disables expiry (spec section 4.4 step 1; header
lines 97 and 630). -/
def deadlineOf (now : Nat) (timeout_ms : Int) : Option Nat :=
  if timeout_ms ≤ 0 then none else some (now + timeout_ms.toNat)

/-- Modelled from the spec: `resolveRepublishInterval` turns the caller's
republish interval into a next-republish deadline: next-republish = now +
republishInterval, and the sentinel `REPUBLISH_NEVER` (a non-positive
interval) disables republish (spec section 4.4 step 1; header lines 99 and
631). -/
def republishOf (now : Nat) (republish_ms : Int) : Option Nat :=
  if republish_ms ≤ 0 then none else some (now + republish_ms.toNat)

/-- Modelled from the spec: registering a pending request when a request is
sent (spec section 4.4 step 1). -/
def registerRequest (s : CorrState) (uid : String) (now : Nat)
    (timeout_ms republish_ms : Int) : CorrState :=
  { s with pending := s.pending ++
      [⟨uid, deadlineOf now timeout_ms, republishOf now republish_ms,
        republish_ms.toNat⟩] }

/-- Modelled from the spec: `onReply` (header line 587; spec section 4.4
step 2): extract the correlation id of the inbound reply; if a pending
request with that id exists, resolve it and remove the entry; if no match
the reply is stale/unknown and is dropped without error — the state is left
unchanged. -/
def onReply (s : CorrState) (uid : String) : CorrState :=
  if s.pending.any (fun p => decide (p.uid = uid)) then
    { pending := s.pending.filter (fun p => decide (p.uid ≠ uid)),
      log := s.log ++ [(uid, Resolution.replied)] }
  else s

/-- Modelled from the spec: the periodic sweep's treatment of one pending
entry at time `now` (spec section 4.4 step 3): if now ≥ the republish
deadline and republish is enabled, resend the message and advance the
republish deadline; if now ≥ the timeout deadline, resolve the entry with a
timeout failure and remove it.  Returns the surviving entry (if any), the
number of resends emitted, and the resolution log entries produced. -/
def sweepEntry (now : Nat) (p : PendingRequest) :
    Option PendingRequest × Nat × List (String × Resolution) :=
  let pr :=
    match p.nextRepublish with
    | some r =>
      if r ≤ now then ({ p with nextRepublish := some (now + p.interval) }, 1)
      else (p, 0)
    | none => (p, 0)
  match p.deadline with
  | some d =>
    if d ≤ now then (none, pr.2, [(p.uid, Resolution.timedOut)])
    else (some pr.1, pr.2, [])
  | none => (some pr.1, pr.2, [])

/-- Modelled from the spec: the periodic sweep over a list of pending
entries (spec section 4.4 step 3). -/
def sweepList (now : Nat) :
    List PendingRequest → List PendingRequest × Nat × List (String × Resolution)
  | [] => ([], 0, [])
  | p :: ps =>
    let r := sweepEntry now p
    let rest := sweepList now ps
    (match r.1 with
     | some q => q :: rest.1
     | none => rest.1,
     r.2.1 + rest.2.1, r.2.2 ++ rest.2.2)

/-- Modelled from the spec: one periodic sweep of the correlator state at
time `now`; returns the new state and the number of resends performed. -/
def sweep (s : CorrState) (now : Nat) : CorrState × Nat :=
  let r := sweepList now s.pending
  ({ pending := r.1, log := s.log ++ r.2.2 }, r.2.1)

/-- Modelled from the spec: run the periodic sweep once per millisecond for
`steps` ticks starting just after `now`, accumulating the number of resends
(spec section 4.4 step 3: a periodic sweep driven by the background timing
source). -/
def runSweeps : CorrState → Nat → Nat → CorrState × Nat
  | s, _, 0 => (s, 0)
  | s, now, steps + 1 =>
    let r := sweep s (now + 1)
    let rest := runSweeps r.1 (now + 1) steps
    (rest.1, r.2 + rest.2)

/-- Number of resolutions delivered for a correlation id. -/
def resCount (s : CorrState) (uid : String) : Nat :=
  (s.log.filter (fun e => decide (e.1 = uid))).length

/-- Number of pending entries carrying a correlation id. -/
def pendCount (s : CorrState) (uid : String) : Nat :=
  (s.pending.filter (fun p => decide (p.uid = uid))).length

/-- The correlator invariant: each correlation id has at most one live slot
— pending or already resolved, never both and never twice (spec section 3:
at most one PendingRequest per correlation id, ids never reused). -/
def CorrInv (s : CorrState) : Prop :=
  ∀ uid, resCount s uid + pendCount s uid ≤ 1

theorem sweepEntry_shape (now : Nat) (p : PendingRequest) :
    (∃ q, (sweepEntry now p).1 = some q ∧ q.uid = p.uid ∧
      q.deadline = p.deadline ∧ (sweepEntry now p).2.2 = []) ∨
    ((sweepEntry now p).1 = none ∧
      (sweepEntry now p).2.2 = [(p.uid, Resolution.timedOut)] ∧
      ∃ d, p.deadline = some d ∧ d ≤ now) := by
  rcases p with ⟨u, dl, nr, iv⟩
  cases dl with
  | none =>
    cases nr with
    | none => exact Or.inl ⟨⟨u, none, none, iv⟩, rfl, rfl, rfl, rfl⟩
    | some r =>
      by_cases hr : r ≤ now
      · exact Or.inl ⟨⟨u, none, some (now + iv), iv⟩,
          by simp [sweepEntry, hr], rfl, rfl, by simp [sweepEntry, hr]⟩
      · exact Or.inl ⟨⟨u, none, some r, iv⟩,
          by simp [sweepEntry, hr], rfl, rfl, by simp [sweepEntry, hr]⟩
  | some d =>
    by_cases hd : d ≤ now
    · refine Or.inr ⟨?_, ?_, ⟨d, rfl, hd⟩⟩ <;>
        · cases nr with
          | none => simp [sweepEntry, hd]
          | some r => by_cases hr : r ≤ now <;> simp [sweepEntry, hd, hr]
    · cases nr with
      | none =>
        exact Or.inl ⟨⟨u, some d, none, iv⟩,
          by simp [sweepEntry, hd], rfl, rfl, by simp [sweepEntry, hd]⟩
      | some r =>
        by_cases hr : r ≤ now
        · exact Or.inl ⟨⟨u, some d, some (now + iv), iv⟩,
            by simp [sweepEntry, hd, hr], rfl, rfl, by simp [sweepEntry, hd, hr]⟩
        · exact Or.inl ⟨⟨u, some d, some r, iv⟩,
            by simp [sweepEntry, hd, hr], rfl, rfl, by simp [sweepEntry, hd, hr]⟩

theorem sweepList_balance (now : Nat) (ps : List PendingRequest) (uid : String) :
    ((sweepList now ps).1.filter (fun p => decide (p.uid = uid))).length +
      ((sweepList now ps).2.2.filter (fun e => decide (e.1 = uid))).length =
    (ps.filter (fun p => decide (p.uid = uid))).length := by
  induction ps with
  | nil => simp [sweepList]
  | cons p ps ih =>
    rcases sweepEntry_shape now p with ⟨q, hq, hqu, _, hlog⟩ | ⟨hnone, hlog, _⟩ <;>
      by_cases hu : p.uid = uid
    · simp only [sweepList, hq, hlog]
      simp [List.filter_cons, hqu, hu]
      omega
    · simp only [sweepList, hq, hlog]
      simp [List.filter_cons, hqu, hu]
      omega
    · simp only [sweepList, hnone, hlog]
      simp [List.filter_cons, List.filter_append, hu]
      omega
    · simp only [sweepList, hnone, hlog]
      simp [List.filter_cons, List.filter_append, hu]
      omega

theorem corrInv_sweep (s : CorrState) (now : Nat) (h : CorrInv s) :
    CorrInv (sweep s now).1 := by
  intro uid
  have hb := sweepList_balance now s.pending uid
  have hs := h uid
  simp only [sweep, resCount, pendCount, List.filter_append,
    List.length_append] at *
  omega

theorem corrInv_onReply (s : CorrState) (uid : String) (h : CorrInv s) :
    CorrInv (onReply s uid) := by
  intro v
  by_cases hany : s.pending.any (fun p => decide (p.uid = uid)) = true
  · have hlog : (onReply s uid).log = s.log ++ [(uid, Resolution.replied)] := by
      simp [onReply, hany]
    have hpnd : (onReply s uid).pending =
        s.pending.filter (fun p => decide (p.uid ≠ uid)) := by
      simp [onReply, hany]
    have hpend1 : 1 ≤ pendCount s uid := by
      rcases List.any_eq_true.mp hany with ⟨p, hp, hpu⟩
      simp only [decide_eq_true_eq] at hpu
      have hmem : p ∈ s.pending.filter (fun p => decide (p.uid = uid)) :=
        List.mem_filter.mpr ⟨hp, by simp [hpu]⟩
      have := List.length_pos.mpr (List.ne_nil_of_mem hmem)
      simpa [pendCount] using this
    have hres0 : resCount s uid = 0 := by
      have := h uid
      omega
    have hresv : ∀ w, resCount (onReply s uid) w =
        resCount s w + (if w = uid then 1 else 0) := by
      intro w
      by_cases hw : w = uid
      · simp [resCount, hlog, List.filter_append, hw]
      · simp [resCount, hlog, List.filter_append, hw, Ne.symm hw]
    have hple : pendCount (onReply s uid) v ≤ pendCount s v := by
      simp only [pendCount, hpnd]
      exact ((List.filter_sublist s.pending).filter _).length_le
    by_cases hv : v = uid
    · subst hv
      have hzero : pendCount (onReply s v) v = 0 := by
        simp only [pendCount, hpnd, List.filter_filter]
        rw [List.length_eq_zero, List.filter_eq_nil_iff]
        intro p _
        simp only [Bool.and_eq_true, decide_eq_true_eq]
        rintro ⟨h1, h2⟩
        exact h2 h1
      rw [hresv v, hzero, hres0]
      simp
    · rw [hresv v, if_neg hv]
      have := h v
      omega
  · have hsame : onReply s uid = s := by
      simp [onReply, hany]
    rw [hsame]
    exact h v

/-- C2: an inbound reply whose correlation id matches no currently pending
request is dropped without raising an error — the correlator state is left
unchanged — and a pending request is resolved at most once: the at-most-once
invariant is preserved by reply delivery and by the timeout sweep, and a
late reply for an id that was already resolved (for instance timed out and
removed) never causes a second resolution. -/
theorem staleReply_dropped_resolvedOnce (s : CorrState) (uid : String)
    (now : Nat) :
    ((∀ p ∈ s.pending, p.uid ≠ uid) → onReply s uid = s) ∧
    (CorrInv s → CorrInv (onReply s uid)) ∧
    (CorrInv s → CorrInv (sweep s now).1) ∧
    (CorrInv s → resCount s uid = 1 → onReply s uid = s) := by
  have hdrop : (∀ p ∈ s.pending, p.uid ≠ uid) → onReply s uid = s := by
    intro hall
    have hfalse : s.pending.any (fun p => decide (p.uid = uid)) = false := by
      rw [List.any_eq_false]
      intro p hp
      simp [hall p hp]
    simp [onReply, hfalse]
  refine ⟨hdrop, corrInv_onReply s uid, corrInv_sweep s now, ?_⟩
  intro hinv hres
  apply hdrop
  have hpc : pendCount s uid = 0 := by
    have := hinv uid
    omega
  have hnil : s.pending.filter (fun p => decide (p.uid = uid)) = [] := by
    have : (s.pending.filter (fun p => decide (p.uid = uid))).length = 0 := hpc
    exact List.length_eq_zero.mp this
  intro p hp hpu
  have : p ∈ s.pending.filter (fun p => decide (p.uid = uid)) :=
    List.mem_filter.mpr ⟨hp, by simp [hpu]⟩
  rw [hnil] at this
  cases this

theorem staleReply_dropped_resolvedOnce_witness :
    onReply ⟨[⟨"a", some 5, none, 0⟩], []⟩ "b" =
      ⟨[⟨"a", some 5, none, 0⟩], []⟩ :=
  (staleReply_dropped_resolvedOnce ⟨[⟨"a", some 5, none, 0⟩], []⟩ "b" 0).1
    (by decide)

/-- The state property behind the "never" timeout sentinel: the request id
has never been resolved with a timeout failure, it is still pending, and
every pending entry carrying it has no expiry deadline. -/
def NeverTimeout (uid : String) (s : CorrState) : Prop :=
  (uid, Resolution.timedOut) ∉ s.log ∧
  (∃ p ∈ s.pending, p.uid = uid) ∧
  (∀ p ∈ s.pending, p.uid = uid → p.deadline = none)

theorem sweepList_never (now : Nat) (ps : List PendingRequest) (uid : String)
    (hall : ∀ p ∈ ps, p.uid = uid → p.deadline = none) :
    (∀ q ∈ (sweepList now ps).1, q.uid = uid → q.deadline = none) ∧
    (∀ e ∈ (sweepList now ps).2.2, e.1 ≠ uid) ∧
    ((∃ p ∈ ps, p.uid = uid) → ∃ q ∈ (sweepList now ps).1, q.uid = uid) := by
  induction ps with
  | nil => simp [sweepList]
  | cons p ps ih =>
    have ihall : ∀ q ∈ ps, q.uid = uid → q.deadline = none := fun q hq =>
      hall q (List.mem_cons_of_mem _ hq)
    obtain ⟨ih1, ih2, ih3⟩ := ih ihall
    rcases sweepEntry_shape now p with ⟨q, hq, hqu, hqd, hlog⟩ |
        ⟨hnone, hlog, d, hd, _⟩
    · simp only [sweepList, hq, hlog, List.nil_append]
      refine ⟨?_, ih2, ?_⟩
      · intro q' hq' hq'u
        rcases List.mem_cons.mp hq' with hh | hh
        · subst hh
          rw [hqd]
          exact hall p (List.mem_cons_self _ _) (hqu ▸ hq'u)
        · exact ih1 q' hh hq'u
      · rintro ⟨p', hp', hp'u⟩
        rcases List.mem_cons.mp hp' with hh | hh
        · exact ⟨q, List.mem_cons_self _ _, hqu.trans (hh ▸ hp'u)⟩
        · obtain ⟨q', hq', hq'u⟩ := ih3 ⟨p', hh, hp'u⟩
          exact ⟨q', List.mem_cons_of_mem _ hq', hq'u⟩
    · have hpu : p.uid ≠ uid := by
        intro hc
        have := hall p (List.mem_cons_self _ _) hc
        rw [hd] at this
        cases this
      simp only [sweepList, hnone, hlog, List.singleton_append]
      refine ⟨ih1, ?_, ?_⟩
      · intro e he
        rcases List.mem_cons.mp he with hh | hh
        · rw [hh]
          exact hpu
        · exact ih2 e hh
      · rintro ⟨p', hp', hp'u⟩
        rcases List.mem_cons.mp hp' with hh | hh
        · exact absurd (hh ▸ hp'u) hpu
        · exact ih3 ⟨p', hh, hp'u⟩

theorem neverTimeout_sweep (s : CorrState) (uid : String) (now : Nat)
    (h : NeverTimeout uid s) : NeverTimeout uid (sweep s now).1 := by
  obtain ⟨hlog, hex, hall⟩ := h
  obtain ⟨hall', hlog', hex'⟩ := sweepList_never now s.pending uid hall
  refine ⟨?_, hex' hex, hall'⟩
  simp only [sweep, List.mem_append]
  rintro (hc | hc)
  · exact hlog hc
  · exact hlog' _ hc rfl

theorem neverTimeout_runSweeps (s : CorrState) (uid : String) (now steps : Nat)
    (h : NeverTimeout uid s) : NeverTimeout uid (runSweeps s now steps).1 := by
  induction steps generalizing s now with
  | zero => exact h
  | succ n ih =>
    simp only [runSweeps]
    exact ih (sweep s (now + 1)).1 (now + 1) (neverTimeout_sweep s uid (now + 1) h)

/-- C3: a request sent with a timeout ≤ 0 registers the sentinel "never":
no expiry deadline is stored for the pending entry, and however many
periodic sweeps pass without a reply, the request is never resolved with a
timeout failure and stays pending. -/
theorem timeout_never_sentinel (s : CorrState) (uid : String) (now : Nat)
    (timeout_ms republish_ms : Int) (steps : Nat)
    (ht : timeout_ms ≤ 0)
    (hfresh : ∀ p ∈ s.pending, p.uid ≠ uid)
    (hlog : (uid, Resolution.timedOut) ∉ s.log) :
    deadlineOf now timeout_ms = none ∧
    (uid, Resolution.timedOut) ∉
      (runSweeps (registerRequest s uid now timeout_ms republish_ms) now
        steps).1.log ∧
    (∃ p ∈ (runSweeps (registerRequest s uid now timeout_ms republish_ms) now
        steps).1.pending, p.uid = uid) := by
  have hd : deadlineOf now timeout_ms = none := by
    simp [deadlineOf, ht]
  have h0 : NeverTimeout uid (registerRequest s uid now timeout_ms republish_ms) := by
    refine ⟨by simpa [registerRequest] using hlog, ?_, ?_⟩
    · exact ⟨⟨uid, deadlineOf now timeout_ms, republishOf now republish_ms,
        republish_ms.toNat⟩, by simp [registerRequest], rfl⟩
    · intro p hp hpu
      rcases List.mem_append.mp hp with hmem | hmem
      · exact absurd hpu (hfresh p hmem)
      · have : p = ⟨uid, deadlineOf now timeout_ms,
            republishOf now republish_ms, republish_ms.toNat⟩ := by
          simpa using hmem
        rw [this]
        exact hd
  have hnever := neverTimeout_runSweeps _ uid now steps h0
  exact ⟨hd, hnever.1, hnever.2.1⟩

theorem timeout_never_sentinel_witness :
    deadlineOf 0 0 = none ∧
    ("r", Resolution.timedOut) ∉
      (runSweeps (registerRequest ⟨[], []⟩ "r" 0 0 0) 0 3).1.log ∧
    (∃ p ∈ (runSweeps (registerRequest ⟨[], []⟩ "r" 0 0 0) 0 3).1.pending,
      p.uid = "r") :=
  timeout_never_sentinel ⟨[], []⟩ "r" 0 0 0 3 (by decide) (by decide)
    (by decide)

/-- C4: a request sent with republish interval 50 ms and timeout 500 ms that
receives no reply is resent by the periodic sweep at least 8 times before
the timeout failure is delivered: simulating the sweep millisecond by
millisecond, the run performs at least 8 resends and ends with the request
resolved by exactly one timeout failure. -/
theorem republish_50_timeout_500_at_least_8_resends :
    8 ≤ (runSweeps (registerRequest ⟨[], []⟩ "req" 0 500 50) 0 500).2 ∧
    (runSweeps (registerRequest ⟨[], []⟩ "req" 0 500 50) 0 500).1.log =
      [("req", Resolution.timedOut)] ∧
    (runSweeps (registerRequest ⟨[], []⟩ "req" 0 500 50) 0 500).1.pending =
      [] := by
  set_option maxRecDepth 20000 in decide

/-! ## AutoDispatcher lifecycle -/

/-- Status reported by the auto-dispatch start/stop operations. -/
inductive DispatchOpStatus
  | started
  | alreadyRunning
  | stopped
  | notRunning
deriving DecidableEq

/-- Modelled from the spec: the auto-dispatcher's lifecycle state: whether
the background worker is active and how many worker threads are alive (spec
section 4.5; header lines 456-474). -/
structure AutoDispatcher where
  running : Bool
  liveWorkers : Nat
deriving DecidableEq

/-- Modelled from the spec: `StartAutoDispatch` spawns the background
worker; starting while already running is a no-op that reports status and
does not spawn a second worker (spec section 4.5; header lines 456-466). -/
def startAutoDispatch (d : AutoDispatcher) : AutoDispatcher × DispatchOpStatus :=
  if d.running then (d, DispatchOpStatus.alreadyRunning)
  else ({ running := true, liveWorkers := d.liveWorkers + 1 },
    DispatchOpStatus.started)

/-- Modelled from the spec: `StopAutoDispatch(waitForComplete = true)` asks
the worker for a cooperative halt and waits for the worker thread to fully
exit; stopping while not running is a no-op (spec section 4.5; header lines
468-474). -/
def stopAutoDispatch (d : AutoDispatcher) : AutoDispatcher × DispatchOpStatus :=
  if d.running then ({ running := false, liveWorkers := d.liveWorkers - 1 },
    DispatchOpStatus.stopped)
  else (d, DispatchOpStatus.notRunning)

/-- The dispatcher invariant: exactly one worker thread is alive while the
dispatcher runs and none while it is stopped. -/
def DispInv (d : AutoDispatcher) : Prop :=
  d.liveWorkers = if d.running then 1 else 0

/-- C7: at most one auto-dispatch worker exists per active period: starting
while already running returns the "already running" status and leaves the
state unchanged — no second worker thread is spawned — stopping while not
running is a no-op, and both operations preserve the single-worker
invariant, so the worker count never exceeds one. -/
theorem autoDispatch_single_worker (d : AutoDispatcher) (h : DispInv d) :
    (d.running = true →
      startAutoDispatch d = (d, DispatchOpStatus.alreadyRunning)) ∧
    (d.running = false →
      stopAutoDispatch d = (d, DispatchOpStatus.notRunning)) ∧
    DispInv (startAutoDispatch d).1 ∧
    DispInv (stopAutoDispatch d).1 ∧
    (startAutoDispatch d).1.liveWorkers ≤ 1 ∧
    (stopAutoDispatch d).1.liveWorkers ≤ 1 := by
  rcases d with ⟨r, w⟩
  cases r with
  | true =>
    have hw : w = 1 := by simpa [DispInv] using h
    subst hw
    refine ⟨?_, ?_, ?_, ?_, ?_, ?_⟩ <;>
      simp [startAutoDispatch, stopAutoDispatch, DispInv]
  | false =>
    have hw : w = 0 := by simpa [DispInv] using h
    subst hw
    refine ⟨?_, ?_, ?_, ?_, ?_, ?_⟩ <;>
      simp [startAutoDispatch, stopAutoDispatch, DispInv]

theorem autoDispatch_single_worker_witness :
    DispInv ⟨true, 1⟩ ∧
    startAutoDispatch ⟨true, 1⟩ = (⟨true, 1⟩, DispatchOpStatus.alreadyRunning) :=
  ⟨rfl, (autoDispatch_single_worker ⟨true, 1⟩ rfl).1 rfl⟩

/-! ## Connection shutdown ordering -/

/-- The observable events of a connection shutdown, in the order they are
performed. -/
inductive ShutdownEvent
  | stopDispatcher
  | cancelRequest (uid : String)
  | transportDisconnect
deriving DecidableEq

/-- Modelled from the spec: the connection state relevant to `Disconnect`
(spec section 4.7): whether the connection is established, whether the
auto-dispatcher worker is running, and the ids of still-pending requests. -/
structure Conn where
  connected : Bool
  dispatcherRunning : Bool
  pendingIds : List String
deriving DecidableEq

/-- Modelled from the spec: `Disconnect` stops the auto-dispatcher if one is
running (waiting for the worker's full exit), then resolves every
still-pending request with a cancellation failure, and only then delegates
to the transport adapter (spec section 4.7; header lines 137-143 and
633-649).  Returns the final state and the ordered event trace. -/
def disconnect (c : Conn) : Conn × List ShutdownEvent :=
  (⟨false, false, []⟩,
   (if c.dispatcherRunning then [ShutdownEvent.stopDispatcher] else []) ++
     c.pendingIds.map ShutdownEvent.cancelRequest ++
     [ShutdownEvent.transportDisconnect])

/-- Modelled from the spec: destruction of the connection automatically
invokes `Disconnect` if the caller did not (header lines 117-120 and
137-139; spec section 4.7). -/
def destroy (c : Conn) : List ShutdownEvent :=
  if c.connected then (disconnect c).2 else []

/-- C6: `Disconnect` on a connected connection first stops the running
auto-dispatcher, then resolves every still-pending request with a
cancellation failure — afterwards no pending request remains, so no caller
blocked in a synchronous `Request` stays blocked — and only then delegates
to the transport adapter, which is the last event of the trace; destroying
the connection performs the same `Disconnect` sequence automatically when
the caller did not disconnect. -/
theorem disconnect_ordering (c : Conn) (hconn : c.connected = true) :
    (c.dispatcherRunning = true →
      (disconnect c).2.head? = some ShutdownEvent.stopDispatcher) ∧
    (∀ uid ∈ c.pendingIds, ShutdownEvent.cancelRequest uid ∈ (disconnect c).2) ∧
    (disconnect c).1.pendingIds = [] ∧
    (disconnect c).1.connected = false ∧
    (disconnect c).1.dispatcherRunning = false ∧
    (disconnect c).2.getLast? = some ShutdownEvent.transportDisconnect ∧
    ShutdownEvent.transportDisconnect ∉ (disconnect c).2.dropLast ∧
    destroy c = (disconnect c).2 := by
  refine ⟨?_, ?_, rfl, rfl, rfl, ?_, ?_, ?_⟩
  · intro hd
    simp [disconnect, hd]
  · intro uid hmem
    simp only [disconnect, List.mem_append]
    exact Or.inl (Or.inr (List.mem_map_of_mem _ hmem))
  · simp only [disconnect]
    rw [List.getLast?_concat]
  · simp only [disconnect, ← List.append_assoc, List.dropLast_concat,
      List.mem_append]
    rintro (hc | hc)
    · split at hc <;> simp_all
    · rcases List.mem_map.mp hc with ⟨u, _, hu⟩
      cases hu
  · simp [destroy, hconn]

theorem disconnect_ordering_witness :
    (disconnect ⟨true, true, ["r1", "r2"]⟩).2.head? =
      some ShutdownEvent.stopDispatcher ∧
    destroy ⟨true, true, ["r1", "r2"]⟩ = (disconnect ⟨true, true, ["r1", "r2"]⟩).2 :=
  ⟨((disconnect_ordering ⟨true, true, ["r1", "r2"]⟩ rfl).1 rfl),
   (disconnect_ordering ⟨true, true, ["r1", "r2"]⟩ rfl).2.2.2.2.2.2.2⟩
